import Mathlib

/-!
Verification of the bin-packing model compiler of this repository
(`src/domain_models.py` and `EnterpriseSolver.build_model` in
`src/solver.py`).  The compiler turns a `PackingRequest` into a
constrained quadratic model: variables with domains, a list of labeled
algebraic constraints, and one objective expression.  Python floats are
modelled as rationals; the symbolic dimod expressions are modelled by a
small expression tree with an evaluator.
-/

/-- `Dimensions` from `domain_models.py`: three positive reals. -/
structure Dimensions where
  length : ℚ
  width : ℚ
  height : ℚ
  deriving DecidableEq

/-- `Item` from `domain_models.py`.  The fields `priority` and
`allowed_orientations` are never read by `build_model` and are omitted. -/
structure Item where
  id : String
  dims : Dimensions
  weight : ℚ
  max_stack_weight : Option ℚ := none
  is_fragile : Bool := false
  deriving DecidableEq

/-- `Bin` from `domain_models.py`, with the optional Day-4 balance fields. -/
structure Bin where
  id : String
  dims : Dimensions
  max_weight : ℚ
  axle_max_weight : Option ℚ := none
  wheelbase : Option ℚ := none
  center_of_gravity_target : Option (ℚ × ℚ) := none
  cog_tolerance : Option ℚ := none
  deriving DecidableEq

/-- `PackingRequest` from `domain_models.py`. -/
structure PackingRequest where
  items : List Item
  bins : List Bin
  time_limit_seconds : ℕ := 20
  deriving DecidableEq

/-- The decision variables declared by `build_model`:
`bin_loc[i,j]`, `bin_on[j]`, coordinates `x_i, y_i, z_i`, and the
relative-position selectors `sel_{i}_{k}_{d}` (d = 0..5 meaning
left / right / behind / front / below / above). -/
inductive Var where
  | binLoc (i j : ℕ)
  | binOn (j : ℕ)
  | x (i : ℕ)
  | y (i : ℕ)
  | z (i : ℕ)
  | sel (i k d : ℕ)
  deriving DecidableEq

/-- Constraint labels.  `build_model` labels constraints with f-strings;
each constructor stands for one of those label schemas, e.g.
`itemAssignedOnce i` for the string `item_{i}_assigned_once`. -/
inductive Label where
  | itemAssignedOnce (i : ℕ)
  | linkItemBin (i j : ℕ)
  | containX (i j : ℕ)
  | containY (i j : ℕ)
  | containZ (i j : ℕ)
  | separationRequired (i k : ℕ)
  | sepLeft (i k : ℕ)
  | sepRight (i k : ℕ)
  | sepBehind (i k : ℕ)
  | sepFront (i k : ℕ)
  | sepBelow (i k : ℕ)
  | sepAbove (i k : ℕ)
  | binWeightLimit (j : ℕ)
  | fragileCannotSupport (i k : ℕ)
  | loadBearingSupports (i k : ℕ)
  | cogXUpper (j : ℕ)
  | cogXLower (j : ℕ)
  | cogYUpper (j : ℕ)
  | cogYLower (j : ℕ)
  | axleRearLimit (j : ℕ)
  | axleFrontLimit (j : ℕ)
  deriving DecidableEq

/-- Symbolic dimod expressions as built by `build_model`: rational
constants, variables, sums, differences, products, and division by a
constant (used once, for `moment_x_j / wb`). -/
inductive Expr where
  | const (c : ℚ)
  | var (v : Var)
  | add (e f : Expr)
  | sub (e f : Expr)
  | mul (e f : Expr)
  | div (e : Expr) (c : ℚ)
  deriving DecidableEq

/-- Comparison sense of a dimod constraint. -/
inductive Sense where
  | le
  | ge
  | eq
  deriving DecidableEq

/-- One labeled constraint `lhs (≤ | ≥ | =) rhs` as added by
`self.cqm.add_constraint(..., label=...)`. -/
structure Constraint where
  label : Label
  lhs : Expr
  sense : Sense
  rhs : Expr
  deriving DecidableEq

/-- Domain of a declared variable: `Binary` or `Real(lower, upper)`. -/
inductive VarDomain where
  | binary
  | real (lo hi : ℚ)
  deriving DecidableEq

/-- The compiled model: declared variables with domains, the labeled
constraints in emission order, and the objective expression. -/
structure Model where
  varDomains : List (Var × VarDomain)
  constraints : List Constraint
  objective : Expr
  deriving DecidableEq

/-- `max(b.dims.length, b.dims.width, b.dims.height)` for one bin. -/
def binMaxDim (b : Bin) : ℚ :=
  max b.dims.length (max b.dims.width b.dims.height)

/-- `max(max(b.dims.length, b.dims.width, b.dims.height) for b in bins)`
(solver.py line 28).  Returns `none` on an empty bin list, where Python
`max` raises `ValueError`. -/
def maxBinDimOfBins : List Bin → Option ℚ
  | [] => none
  | b :: bs => some (bs.foldl (fun m c => max m (binMaxDim c)) (binMaxDim b))

/-- `itertools.combinations(xs, 2)`: all pairs in lexicographic order. -/
def combos2 {α : Type} : List α → List (α × α)
  | [] => []
  | a :: rest => (rest.map fun b => (a, b)) ++ combos2 rest

/-- `dimod.quicksum`: fold the summands into one expression. -/
def quicksum (l : List Expr) : Expr :=
  l.foldl Expr.add (Expr.const 0)

/-- `M * (1 - self.selector[(i, k, d)])`. -/
def bigMSlackSel (M : ℚ) (i k d : ℕ) : Expr :=
  .mul (.const M) (.sub (.const 1) (.var (.sel i k d)))

/-- Constraint family C1 of `build_model`: each item in exactly one bin,
`quicksum(bin_loc[i, j] for j) == 1`, label `item_{i}_assigned_once`. -/
def assignedOnceCs (n m : ℕ) : List Constraint :=
  (List.range n).map fun i =>
    ⟨.itemAssignedOnce i,
      quicksum ((List.range m).map fun j => .var (.binLoc i j)),
      .eq, .const 1⟩

/-- Constraint family C2 of `build_model`: bin-usage link
`bin_loc[i, j] - bin_on[j] <= 0`, label `link_item_{i}_bin_{j}`. -/
def usageLinkCs (n m : ℕ) : List Constraint :=
  (List.range n).flatMap fun i =>
    (List.range m).map fun j =>
      ⟨.linkItemBin i j,
        .sub (.var (.binLoc i j)) (.var (.binOn j)),
        .le, .const 0⟩

/-- Constraint family C3 of `build_model`: containment per (item, bin)
and axis, e.g. `x[i] + len_i - bin_len_j <= M * (1 - bin_loc[i, j])`. -/
def containCs (items : List Item) (bins : List Bin) (M : ℚ) : List Constraint :=
  items.enum.flatMap fun p =>
    bins.enum.flatMap fun q =>
      [⟨.containX p.1 q.1,
         .sub (.add (.var (.x p.1)) (.const p.2.dims.length)) (.const q.2.dims.length),
         .le, .mul (.const M) (.sub (.const 1) (.var (.binLoc p.1 q.1)))⟩,
       ⟨.containY p.1 q.1,
         .sub (.add (.var (.y p.1)) (.const p.2.dims.width)) (.const q.2.dims.width),
         .le, .mul (.const M) (.sub (.const 1) (.var (.binLoc p.1 q.1)))⟩,
       ⟨.containZ p.1 q.1,
         .sub (.add (.var (.z p.1)) (.const p.2.dims.height)) (.const q.2.dims.height),
         .le, .mul (.const M) (.sub (.const 1) (.var (.binLoc p.1 q.1)))⟩]

/-- Constraint family C4 of `build_model`: per unordered pair, the
unconditional disjunction `quicksum(sel[i,k,d] for d in range(6)) >= 1`
followed by the six directional Big-M separations. -/
def sepCs (items : List Item) (M : ℚ) : List Constraint :=
  (combos2 items.enum).flatMap fun pq =>
    let i := pq.1.1
    let iti := pq.1.2
    let k := pq.2.1
    let itk := pq.2.2
    [⟨.separationRequired i k,
       quicksum ((List.range 6).map fun d => .var (.sel i k d)),
       .ge, .const 1⟩,
     ⟨.sepLeft i k,
       .sub (.add (.var (.x i)) (.const iti.dims.length)) (.var (.x k)),
       .le, bigMSlackSel M i k 0⟩,
     ⟨.sepRight i k,
       .sub (.add (.var (.x k)) (.const itk.dims.length)) (.var (.x i)),
       .le, bigMSlackSel M i k 1⟩,
     ⟨.sepBehind i k,
       .sub (.add (.var (.y i)) (.const iti.dims.width)) (.var (.y k)),
       .le, bigMSlackSel M i k 2⟩,
     ⟨.sepFront i k,
       .sub (.add (.var (.y k)) (.const itk.dims.width)) (.var (.y i)),
       .le, bigMSlackSel M i k 3⟩,
     ⟨.sepBelow i k,
       .sub (.add (.var (.z i)) (.const iti.dims.height)) (.var (.z k)),
       .le, bigMSlackSel M i k 4⟩,
     ⟨.sepAbove i k,
       .sub (.add (.var (.z k)) (.const itk.dims.height)) (.var (.z i)),
       .le, bigMSlackSel M i k 5⟩]

/-- Constraint family C5 of `build_model`: per-bin weight capacity
`quicksum(bin_loc[i, j] * weight_i for i) <= max_weight_j`. -/
def weightCs (items : List Item) (bins : List Bin) : List Constraint :=
  bins.enum.map fun q =>
    ⟨.binWeightLimit q.1,
      quicksum (items.enum.map fun p => .mul (.var (.binLoc p.1 q.1)) (.const p.2.weight)),
      .le, .const q.2.max_weight⟩

/-- Constraint family C6 of `build_model`: per unordered pair, fragility
(`sel[i,k,4] == 0` when item i is fragile, `sel[i,k,5] == 0` when item k
is) and load bearing (`weight_k * sel[i,k,4] <= max_stack_weight_i` when
declared, and symmetrically). -/
def stackCs (items : List Item) : List Constraint :=
  (combos2 items.enum).flatMap fun pq =>
    let i := pq.1.1
    let iti := pq.1.2
    let k := pq.2.1
    let itk := pq.2.2
    (if iti.is_fragile then
      [⟨.fragileCannotSupport i k, .var (.sel i k 4), .eq, .const 0⟩]
     else [])
    ++ (if itk.is_fragile then
      [⟨.fragileCannotSupport k i, .var (.sel i k 5), .eq, .const 0⟩]
     else [])
    ++ (match iti.max_stack_weight with
        | some lim =>
          [⟨.loadBearingSupports i k, .mul (.const itk.weight) (.var (.sel i k 4)), .le, .const lim⟩]
        | none => [])
    ++ (match itk.max_stack_weight with
        | some lim =>
          [⟨.loadBearingSupports k i, .mul (.const iti.weight) (.var (.sel i k 5)), .le, .const lim⟩]
        | none => [])

/-- `total_weight_j = quicksum(bin_loc[i, j] * weight_i for i)`. -/
def totalWeightExpr (items : List Item) (j : ℕ) : Expr :=
  quicksum (items.enum.map fun p => .mul (.var (.binLoc p.1 j)) (.const p.2.weight))

/-- `moment_x_j = quicksum(bin_loc[i, j] * weight_i * (x[i] + len_i / 2) for i)`. -/
def momentXExpr (items : List Item) (j : ℕ) : Expr :=
  quicksum (items.enum.map fun p =>
    .mul (.mul (.var (.binLoc p.1 j)) (.const p.2.weight))
         (.add (.var (.x p.1)) (.const (p.2.dims.length / 2))))

/-- `moment_y_j = quicksum(bin_loc[i, j] * weight_i * (y[i] + wid_i / 2) for i)`. -/
def momentYExpr (items : List Item) (j : ℕ) : Expr :=
  quicksum (items.enum.map fun p =>
    .mul (.mul (.var (.binLoc p.1 j)) (.const p.2.weight))
         (.add (.var (.y p.1)) (.const (p.2.dims.width / 2))))

/-- Center-of-gravity family for one bin (solver.py lines 189-231).
The Python guard `if bin_obj.center_of_gravity_target and
bin_obj.cog_tolerance:` tests truthiness: a present 2-tuple is always
truthy, a present float is truthy iff it is nonzero. -/
def cogCs (items : List Item) (j : ℕ) (b : Bin) : List Constraint :=
  match b.center_of_gravity_target, b.cog_tolerance with
  | some txy, some tol =>
    if tol = 0 then []
    else
      [⟨.cogXUpper j,
         .sub (momentXExpr items j) (.mul (.const (txy.1 + tol)) (totalWeightExpr items j)),
         .le, .const 0⟩,
       ⟨.cogXLower j,
         .sub (momentXExpr items j) (.mul (.const (txy.1 - tol)) (totalWeightExpr items j)),
         .ge, .const 0⟩,
       ⟨.cogYUpper j,
         .sub (momentYExpr items j) (.mul (.const (txy.2 + tol)) (totalWeightExpr items j)),
         .le, .const 0⟩,
       ⟨.cogYLower j,
         .sub (momentYExpr items j) (.mul (.const (txy.2 - tol)) (totalWeightExpr items j)),
         .ge, .const 0⟩]
  | _, _ => []

/-- Axle family for one bin (solver.py lines 233-263), with
`rear_axle_load = moment_x_j / wb` and `front_axle_load = total - rear`.
Guard `if bin_obj.wheelbase and bin_obj.axle_max_weight:`: both fields
present and (float truthiness) nonzero. -/
def axleCs (items : List Item) (j : ℕ) (b : Bin) : List Constraint :=
  match b.wheelbase, b.axle_max_weight with
  | some wb, some maxAxle =>
    if wb = 0 ∨ maxAxle = 0 then []
    else
      [⟨.axleRearLimit j,
         .div (momentXExpr items j) wb,
         .le, .const maxAxle⟩,
       ⟨.axleFrontLimit j,
         .sub (totalWeightExpr items j) (.div (momentXExpr items j) wb),
         .le, .const maxAxle⟩]
  | _, _ => []

/-- Variable declarations of `build_model` with their domains:
binaries for `bin_loc`, `bin_on`, `sel`, and `Real(0, max_bin_dim)` for
each coordinate. -/
def varDomainsOf (items : List Item) (bins : List Bin) (maxDim : ℚ) : List (Var × VarDomain) :=
  let n := items.length
  let m := bins.length
  ((List.range n).flatMap fun i =>
    (List.range m).map fun j => (Var.binLoc i j, VarDomain.binary))
  ++ ((List.range m).map fun j => (Var.binOn j, VarDomain.binary))
  ++ ((List.range n).map fun i => (Var.x i, VarDomain.real 0 maxDim))
  ++ ((List.range n).map fun i => (Var.y i, VarDomain.real 0 maxDim))
  ++ ((List.range n).map fun i => (Var.z i, VarDomain.real 0 maxDim))
  ++ ((combos2 (List.range n)).flatMap fun ik =>
       (List.range 6).map fun d => (Var.sel ik.1 ik.2 d, VarDomain.binary))

/-- The whole of `build_model` after `max_bin_dim` has been computed:
`M = max_bin_dim * 2`, the variable declarations, the constraint
families in source order, and the minimize-bins-used objective. -/
def buildModelCore (items : List Item) (bins : List Bin) (maxDim : ℚ) : Model :=
  let M := maxDim * 2
  { varDomains := varDomainsOf items bins maxDim
    constraints :=
      assignedOnceCs items.length bins.length
      ++ usageLinkCs items.length bins.length
      ++ containCs items bins M
      ++ sepCs items M
      ++ weightCs items bins
      ++ stackCs items
      ++ bins.enum.flatMap (fun q => cogCs items q.1 q.2 ++ axleCs items q.1 q.2)
    objective := quicksum ((List.range bins.length).map fun j => .var (.binOn j)) }

/-- `build_model` on a request: computing `max_bin_dim` by Python `max`
raises `ValueError` on an empty bin list; otherwise the model is built.
No other validation is performed. -/
def buildModel (r : PackingRequest) : Except String Model :=
  match maxBinDimOfBins r.bins with
  | none => .error "ValueError: max() arg is an empty sequence"
  | some d => .ok (buildModelCore r.items r.bins d)

/-- Value of a symbolic expression under an assignment of the variables. -/
def evalExpr (a : Var → ℚ) : Expr → ℚ
  | .const c => c
  | .var v => a v
  | .add e f => evalExpr a e + evalExpr a f
  | .sub e f => evalExpr a e - evalExpr a f
  | .mul e f => evalExpr a e * evalExpr a f
  | .div e c => evalExpr a e / c

/-- Whether an assignment satisfies one constraint. -/
def constraintHolds (a : Var → ℚ) (c : Constraint) : Bool :=
  match c.sense with
  | .le => decide (evalExpr a c.lhs ≤ evalExpr a c.rhs)
  | .ge => decide (evalExpr a c.rhs ≤ evalExpr a c.lhs)
  | .eq => decide (evalExpr a c.lhs = evalExpr a c.rhs)

/-- Whether an assignment respects one declared variable domain. -/
def inDomain (a : Var → ℚ) : Var × VarDomain → Bool
  | (v, .binary) => decide (a v = 0 ∨ a v = 1)
  | (v, .real lo hi) => decide (lo ≤ a v ∧ a v ≤ hi)

/-- Feasibility of an assignment for a compiled model: all domains and
all constraints are respected. -/
def feasible (mdl : Model) (a : Var → ℚ) : Bool :=
  mdl.varDomains.all (inDomain a) && mdl.constraints.all (constraintHolds a)

/-- The label of the directional separation constraint for direction
`d` (0 left, 1 right, 2 behind, 3 front, 4 below, 5 above). -/
def sepLabel (i k : ℕ) : ℕ → Label
  | 0 => .sepLeft i k
  | 1 => .sepRight i k
  | 2 => .sepBehind i k
  | 3 => .sepFront i k
  | 4 => .sepBelow i k
  | _ => .sepAbove i k

/-- The left-hand side of the directional separation constraint for
direction `d`, exactly as emitted by `build_model`: e.g. for d = 0,
`x[i] + len_i - x[k]`. -/
def sepLhs (iti itk : Item) (i k : ℕ) : ℕ → Expr
  | 0 => .sub (.add (.var (.x i)) (.const iti.dims.length)) (.var (.x k))
  | 1 => .sub (.add (.var (.x k)) (.const itk.dims.length)) (.var (.x i))
  | 2 => .sub (.add (.var (.y i)) (.const iti.dims.width)) (.var (.y k))
  | 3 => .sub (.add (.var (.y k)) (.const itk.dims.width)) (.var (.y i))
  | 4 => .sub (.add (.var (.z i)) (.const iti.dims.height)) (.var (.z k))
  | _ => .sub (.add (.var (.z k)) (.const itk.dims.height)) (.var (.z i))

/-- A bin with all four optional balance fields cleared; used to state
that the balance families are purely additive. -/
def stripBalance (b : Bin) : Bin :=
  { b with axle_max_weight := none, wheelbase := none,
           center_of_gravity_target := none, cog_tolerance := none }

/-- The state an `EnterpriseSolver` instance holds across method calls:
the `time_limit` and the `ConstrainedQuadraticModel` created in
`__init__` (its variables, constraints and objective).  The variable
dictionaries `bin_loc` etc. are rebuilt from scratch by every
`build_model` call and are captured by the CQM content. -/
structure EnterpriseSolver where
  time_limit : ℕ
  cqmVarDomains : List (Var × VarDomain)
  cqmConstraints : List Constraint
  cqmObjective : Expr

/-- `EnterpriseSolver.__init__(time_limit=20)`: a fresh empty CQM. -/
def EnterpriseSolver.init (time_limit : ℕ := 20) : EnterpriseSolver :=
  { time_limit := time_limit, cqmVarDomains := [], cqmConstraints := [], cqmObjective := .const 0 }

/-- `dimod.ConstrainedQuadraticModel.add_constraint`: appends the
constraint, raising `ValueError` when a constraint with the same label
already exists in the CQM. -/
def addConstraintCQM (cs : List Constraint) (c : Constraint) : Except String (List Constraint) :=
  if cs.any (fun c0 => c0.label == c.label) then
    .error "ValueError: a constraint with this label already exists"
  else
    .ok (cs ++ [c])

/-- `build_model` as the method actually runs: against the CQM stored in
the solver instance, registering the declared variables and adding the
constraints of `buildModelCore` one by one. -/
def EnterpriseSolver.runBuildModel (s : EnterpriseSolver) (r : PackingRequest) :
    Except String EnterpriseSolver :=
  match maxBinDimOfBins r.bins with
  | none => .error "ValueError: max() arg is an empty sequence"
  | some d =>
    let mdl := buildModelCore r.items r.bins d
    (mdl.constraints.foldlM addConstraintCQM s.cqmConstraints).map fun cs =>
      { s with cqmVarDomains := s.cqmVarDomains ++ mdl.varDomains,
               cqmConstraints := cs,
               cqmObjective := mdl.objective }

/-- The CQM content of a solver instance, forgetting `time_limit`. -/
def EnterpriseSolver.cqmContent (s : EnterpriseSolver) :
    List (Var × VarDomain) × List Constraint × Expr :=
  (s.cqmVarDomains, s.cqmConstraints, s.cqmObjective)

/-- The heavy item of the center-of-gravity test scenario
(`test_balance.py`): 2 x 2 x 2, 50 kg. -/
def heavyBox : Item := { id := "heavy-box", dims := ⟨2, 2, 2⟩, weight := 50 }

/-- The light item of the center-of-gravity test scenario: 2 x 2 x 2, 5 kg. -/
def lightBox : Item := { id := "light-box", dims := ⟨2, 2, 2⟩, weight := 5 }

/-- The center-of-gravity scenario bin: 20 x 10 x 10, CoG target
x = 10 with tolerance 2. -/
def cogBin : Bin :=
  { id := "truck-1", dims := ⟨20, 10, 10⟩, max_weight := 100,
    center_of_gravity_target := some (10, 5), cog_tolerance := some 2 }

/-- The center-of-gravity scenario request. -/
def cogRequest : PackingRequest := { items := [heavyBox, lightBox], bins := [cogBin] }

/-- The compiled center-of-gravity scenario model (`max_bin_dim` = 20). -/
def cogModel : Model := buildModelCore cogRequest.items cogRequest.bins 20

/-- A concrete assignment for the CoG scenario: the heavy item at
corner x = 12 (geometric center 13), the light item at corner x = 0,
separated vertically. -/
def cogWideAssign : Var → ℚ
  | .binLoc _ _ => 1
  | .binOn _ => 1
  | .x 0 => 12
  | .x _ => 0
  | .y _ => 4
  | .z 0 => 0
  | .z _ => 2
  | .sel 0 1 4 => 1
  | .sel _ _ _ => 0

/-- A balanced assignment for the CoG scenario: both items centered. -/
def cogMidAssign : Var → ℚ
  | .binLoc _ _ => 1
  | .binOn _ => 1
  | .x _ => 9
  | .y _ => 4
  | .z 0 => 0
  | .z _ => 2
  | .sel 0 1 4 => 1
  | .sel _ _ _ => 0

/-- The axle scenario item (`test_balance.py`): 2 x 2 x 2, 60 kg. -/
def heavyLoad : Item := { id := "heavy-load", dims := ⟨2, 2, 2⟩, weight := 60 }

/-- The axle scenario bin: 10 x 10 x 10, wheelbase 10, per-axle limit 40. -/
def axleBin : Bin :=
  { id := "truck-2", dims := ⟨10, 10, 10⟩, max_weight := 100,
    wheelbase := some 10, axle_max_weight := some 40 }

/-- The axle scenario request. -/
def axleRequest : PackingRequest := { items := [heavyLoad], bins := [axleBin] }

/-- The compiled axle scenario model (`max_bin_dim` = 10). -/
def axleModel : Model := buildModelCore axleRequest.items axleRequest.bins 10

/-- A candidate assignment for the axle scenario, the single item at
corner x = v on the floor. -/
def axleAssign (v : ℚ) : Var → ℚ
  | .x _ => v
  | .binLoc _ _ => 1
  | .binOn _ => 1
  | _ => 0

/-- The load-bearing scenario (`test_stackability.py`): a weak box
(10 x 10 x 10, 10 kg, max stack weight 5). -/
def weakBox : Item :=
  { id := "weak-box", dims := ⟨10, 10, 10⟩, weight := 10, max_stack_weight := some 5 }

/-- The load-bearing scenario heavy box: 10 x 10 x 10, 20 kg. -/
def bigBox : Item := { id := "heavy-box", dims := ⟨10, 10, 10⟩, weight := 20 }

/-- The load-bearing scenario bin: 10 x 10 x 20, only the stacked
configuration fits both boxes. -/
def towerBin : Bin := { id := "tower-2", dims := ⟨10, 10, 20⟩, max_weight := 100 }

/-- The load-bearing scenario request. -/
def loadRequest : PackingRequest := { items := [weakBox, bigBox], bins := [towerBin] }

/-- The compiled load-bearing scenario model (`max_bin_dim` = 20). -/
def loadModel : Model := buildModelCore loadRequest.items loadRequest.bins 20

/-- A bin whose balance fields are both present but with
`cog_tolerance = 0.0`, which Python treats as falsy. -/
def zeroTolBin : Bin :=
  { id := "zt", dims := ⟨20, 10, 10⟩, max_weight := 100,
    center_of_gravity_target := some (10, 5), cog_tolerance := some 0 }

/-- A request with an empty item list and one bin. -/
def noItemsRequest : PackingRequest := { items := [], bins := [towerBin] }

/-- A request with one item and an empty bin list. -/
def noBinsRequest : PackingRequest := { items := [heavyBox], bins := [] }

section
attribute [local semireducible] Rat.add Rat.mul Rat.sub Rat.inv

theorem evalExpr_foldl_add (a : Var → ℚ) (l : List Expr) (e : Expr) :
    evalExpr a (l.foldl Expr.add e) = evalExpr a e + (l.map (evalExpr a)).sum := by
  induction l generalizing e with
  | nil => simp
  | cons q t ih => simp [ih, evalExpr]; ring

theorem evalExpr_quicksum (a : Var → ℚ) (l : List Expr) :
    evalExpr a (quicksum l) = (l.map (evalExpr a)).sum := by
  simp [quicksum, evalExpr_foldl_add, evalExpr]

theorem feasible_constraint {mdl : Model} {a : Var → ℚ} (hf : feasible mdl a = true)
    {c : Constraint} (hc : c ∈ mdl.constraints) : constraintHolds a c = true := by
  have h2 := (Bool.and_eq_true _ _).mp hf |>.2
  exact List.all_eq_true.mp h2 c hc

theorem feasible_domain {mdl : Model} {a : Var → ℚ} (hf : feasible mdl a = true)
    {vd : Var × VarDomain} (hd : vd ∈ mdl.varDomains) : inDomain a vd = true := by
  have h1 := (Bool.and_eq_true _ _).mp hf |>.1
  exact List.all_eq_true.mp h1 vd hd

theorem holds_le {a : Var → ℚ} {lab : Label} {l r : Expr}
    (h : constraintHolds a ⟨lab, l, .le, r⟩ = true) : evalExpr a l ≤ evalExpr a r := by
  simpa [constraintHolds] using h

theorem holds_ge {a : Var → ℚ} {lab : Label} {l r : Expr}
    (h : constraintHolds a ⟨lab, l, .ge, r⟩ = true) : evalExpr a r ≤ evalExpr a l := by
  simpa [constraintHolds] using h

theorem holds_eq {a : Var → ℚ} {lab : Label} {l r : Expr}
    (h : constraintHolds a ⟨lab, l, .eq, r⟩ = true) : evalExpr a l = evalExpr a r := by
  simpa [constraintHolds] using h

theorem le_holds {a : Var → ℚ} {lab : Label} {l r : Expr}
    (h : evalExpr a l ≤ evalExpr a r) : constraintHolds a ⟨lab, l, .le, r⟩ = true := by
  simpa [constraintHolds] using h

theorem domain_binary {a : Var → ℚ} {v : Var}
    (h : inDomain a (v, .binary) = true) : a v = 0 ∨ a v = 1 := by
  simpa [inDomain] using h

theorem domain_real {a : Var → ℚ} {v : Var} {lo hi : ℚ}
    (h : inDomain a (v, .real lo hi) = true) : lo ≤ a v ∧ a v ≤ hi := by
  simpa [inDomain] using h

theorem mem_core_assignedOnce {items : List Item} {bins : List Bin} {maxDim : ℚ}
    {c : Constraint} (h : c ∈ assignedOnceCs items.length bins.length) :
    c ∈ (buildModelCore items bins maxDim).constraints := by
  simp only [buildModelCore, List.mem_append]
  exact Or.inl (Or.inl (Or.inl (Or.inl (Or.inl (Or.inl h)))))

theorem mem_core_usageLink {items : List Item} {bins : List Bin} {maxDim : ℚ}
    {c : Constraint} (h : c ∈ usageLinkCs items.length bins.length) :
    c ∈ (buildModelCore items bins maxDim).constraints := by
  simp only [buildModelCore, List.mem_append]
  exact Or.inl (Or.inl (Or.inl (Or.inl (Or.inl (Or.inr h)))))

theorem mem_core_contain {items : List Item} {bins : List Bin} {maxDim : ℚ}
    {c : Constraint} (h : c ∈ containCs items bins (maxDim * 2)) :
    c ∈ (buildModelCore items bins maxDim).constraints := by
  simp only [buildModelCore, List.mem_append]
  exact Or.inl (Or.inl (Or.inl (Or.inl (Or.inr h))))

theorem mem_core_sep {items : List Item} {bins : List Bin} {maxDim : ℚ}
    {c : Constraint} (h : c ∈ sepCs items (maxDim * 2)) :
    c ∈ (buildModelCore items bins maxDim).constraints := by
  simp only [buildModelCore, List.mem_append]
  exact Or.inl (Or.inl (Or.inl (Or.inr h)))

theorem mem_core_weight {items : List Item} {bins : List Bin} {maxDim : ℚ}
    {c : Constraint} (h : c ∈ weightCs items bins) :
    c ∈ (buildModelCore items bins maxDim).constraints := by
  simp only [buildModelCore, List.mem_append]
  exact Or.inl (Or.inl (Or.inr h))

theorem mem_core_stack {items : List Item} {bins : List Bin} {maxDim : ℚ}
    {c : Constraint} (h : c ∈ stackCs items) :
    c ∈ (buildModelCore items bins maxDim).constraints := by
  simp only [buildModelCore, List.mem_append]
  exact Or.inl (Or.inr h)

theorem mem_core_balance {items : List Item} {bins : List Bin} {maxDim : ℚ}
    {c : Constraint}
    (h : c ∈ bins.enum.flatMap (fun q => cogCs items q.1 q.2 ++ axleCs items q.1 q.2)) :
    c ∈ (buildModelCore items bins maxDim).constraints := by
  simp only [buildModelCore, List.mem_append]
  exact Or.inr h

theorem mem_binLoc_domain {items : List Item} {bins : List Bin} {maxDim : ℚ}
    {i j : ℕ} (hi : i < items.length) (hj : j < bins.length) :
    (Var.binLoc i j, VarDomain.binary) ∈ (buildModelCore items bins maxDim).varDomains := by
  simp only [buildModelCore, varDomainsOf, List.mem_append]
  exact Or.inl (Or.inl (Or.inl (Or.inl (Or.inl (List.mem_flatMap.mpr
    ⟨i, List.mem_range.mpr hi, List.mem_map.mpr ⟨j, List.mem_range.mpr hj, rfl⟩⟩)))))

theorem mem_x_domain {items : List Item} {bins : List Bin} {maxDim : ℚ}
    {i : ℕ} (hi : i < items.length) :
    (Var.x i, VarDomain.real 0 maxDim) ∈ (buildModelCore items bins maxDim).varDomains := by
  simp only [buildModelCore, varDomainsOf, List.mem_append]
  exact Or.inl (Or.inl (Or.inl (Or.inr (List.mem_map.mpr ⟨i, List.mem_range.mpr hi, rfl⟩))))

theorem sum_of_zero_one_nonneg (l : List ℚ) (h : ∀ q ∈ l, q = 0 ∨ q = 1) : 0 ≤ l.sum := by
  induction l with
  | nil => simp
  | cons q t ih =>
    have hq := h q (by simp)
    have ht := ih (fun q2 hq2 => h q2 (by simp [hq2]))
    rcases hq with h0 | h1
    · simp [h0]; linarith
    · simp [h1]; linarith

theorem sum_of_zero_one_eq_zero (l : List ℚ) (h : ∀ q ∈ l, q = 0 ∨ q = 1)
    (hs : l.sum = 0) : ∀ q ∈ l, q = 0 := by
  induction l with
  | nil => simp
  | cons q t ih =>
    have ht : ∀ q2 ∈ t, q2 = 0 ∨ q2 = 1 := fun q2 hq2 => h q2 (by simp [hq2])
    have htn := sum_of_zero_one_nonneg t ht
    rw [List.sum_cons] at hs
    rcases h q (by simp) with h0 | h1
    · intro q2 hq2
      rcases List.mem_cons.mp hq2 with rfl | hmem
      · exact h0
      · exact ih ht (by rw [h0] at hs; linarith) q2 hmem
    · rw [h1] at hs; linarith

theorem exists_unique_one (m : ℕ) (f : ℕ → ℚ)
    (h01 : ∀ j, j < m → f j = 0 ∨ f j = 1)
    (hs : ((List.range m).map f).sum = 1) :
    ∃ j, j < m ∧ f j = 1 ∧ ∀ j2, j2 < m → f j2 = 1 → j2 = j := by
  induction m with
  | zero => simp at hs
  | succ n ih =>
    rw [List.range_succ, List.map_append, List.sum_append, List.map_singleton,
        List.sum_singleton] at hs
    rcases h01 n (Nat.lt_succ_self n) with h0 | h1
    · rw [h0, add_zero] at hs
      obtain ⟨j, hj, hfj, huniq⟩ := ih (fun j hj => h01 j (Nat.lt_succ_of_lt hj)) hs
      refine ⟨j, Nat.lt_succ_of_lt hj, hfj, fun j2 hj2 hfj2 => ?_⟩
      rcases Nat.lt_succ_iff_lt_or_eq.mp hj2 with h | h
      · exact huniq j2 h hfj2
      · subst h; rw [hfj2] at h0; norm_num at h0
    · rw [h1] at hs
      have hz : ((List.range n).map f).sum = 0 := by linarith
      have hall := sum_of_zero_one_eq_zero _ (fun q hq => by
        obtain ⟨j, hj, rfl⟩ := List.mem_map.mp hq
        exact h01 j (Nat.lt_succ_of_lt (List.mem_range.mp hj))) hz
      refine ⟨n, Nat.lt_succ_self n, h1, fun j2 hj2 hfj2 => ?_⟩
      rcases Nat.lt_succ_iff_lt_or_eq.mp hj2 with h | h
      · have hzero := hall (f j2) (List.mem_map.mpr ⟨j2, List.mem_range.mpr h, rfl⟩)
        rw [hfj2] at hzero; norm_num at hzero
      · exact h

/-- **C7**: for every item i the compiled model contains the constraint
`sum over bins j of assign[i,j] == 1`; in every feasible assignment
exactly one of item i's bin variables equals 1; for every (i,j) the
model contains `assign[i,j] - used[j] <= 0`; and the objective is the
sum of the `used[j]` variables (minimized by the solver). -/
theorem c7_assigned_once (items : List Item) (bins : List Bin) (maxDim : ℚ)
    (i : ℕ) (hi : i < items.length) :
    ((⟨.itemAssignedOnce i,
        quicksum ((List.range bins.length).map fun j => .var (.binLoc i j)),
        .eq, .const 1⟩ : Constraint) ∈ (buildModelCore items bins maxDim).constraints)
    ∧ (∀ a : Var → ℚ, feasible (buildModelCore items bins maxDim) a = true →
        ∃ j, j < bins.length ∧ a (Var.binLoc i j) = 1
          ∧ ∀ j2, j2 < bins.length → a (Var.binLoc i j2) = 1 → j2 = j)
    ∧ (∀ j, j < bins.length →
        (⟨.linkItemBin i j, .sub (.var (.binLoc i j)) (.var (.binOn j)), .le, .const 0⟩ : Constraint)
          ∈ (buildModelCore items bins maxDim).constraints)
    ∧ (buildModelCore items bins maxDim).objective
        = quicksum ((List.range bins.length).map fun j => .var (.binOn j)) := by
  refine ⟨?_, ?_, ?_, rfl⟩
  · exact mem_core_assignedOnce (List.mem_map.mpr ⟨i, List.mem_range.mpr hi, rfl⟩)
  · intro a hf
    have hc := feasible_constraint hf
      (mem_core_assignedOnce (c := ⟨.itemAssignedOnce i,
        quicksum ((List.range bins.length).map fun j => .var (.binLoc i j)), .eq, .const 1⟩)
        (List.mem_map.mpr ⟨i, List.mem_range.mpr hi, rfl⟩))
    have hsum := holds_eq hc
    rw [evalExpr_quicksum, List.map_map] at hsum
    have hsum2 : ((List.range bins.length).map fun j => a (Var.binLoc i j)).sum = 1 := by
      simpa [Function.comp, evalExpr] using hsum
    refine exists_unique_one bins.length (fun j => a (Var.binLoc i j)) ?_ hsum2
    intro j hj
    exact domain_binary (feasible_domain hf (mem_binLoc_domain hi hj))
  · intro j hj
    exact mem_core_usageLink (List.mem_flatMap.mpr
      ⟨i, List.mem_range.mpr hi, List.mem_map.mpr ⟨j, List.mem_range.mpr hj, rfl⟩⟩)

/-- Witness for C7 at the CoG scenario request, item 0. -/
theorem c7_assigned_once_witness :
    ((⟨.itemAssignedOnce 0,
        quicksum ((List.range 1).map fun j => .var (.binLoc 0 j)),
        .eq, .const 1⟩ : Constraint) ∈ (buildModelCore cogRequest.items cogRequest.bins 20).constraints)
    ∧ (∀ a : Var → ℚ, feasible (buildModelCore cogRequest.items cogRequest.bins 20) a = true →
        ∃ j, j < 1 ∧ a (Var.binLoc 0 j) = 1
          ∧ ∀ j2, j2 < 1 → a (Var.binLoc 0 j2) = 1 → j2 = j)
    ∧ (∀ j, j < 1 →
        (⟨.linkItemBin 0 j, .sub (.var (.binLoc 0 j)) (.var (.binOn j)), .le, .const 0⟩ : Constraint)
          ∈ (buildModelCore cogRequest.items cogRequest.bins 20).constraints)
    ∧ (buildModelCore cogRequest.items cogRequest.bins 20).objective
        = quicksum ((List.range 1).map fun j => .var (.binOn j)) :=
  c7_assigned_once cogRequest.items cogRequest.bins 20 0 (by decide)


theorem combos2_map {α β : Type} (f : α → β) (l : List α) :
    combos2 (l.map f) = (combos2 l).map (fun p => (f p.1, f p.2)) := by
  induction l with
  | nil => rfl
  | cons a rest ih => simp [combos2, ih, List.map_map, Function.comp]

theorem mem_combos2_range {items : List Item} {i k : ℕ} {iti itk : Item}
    (h : ((i, iti), (k, itk)) ∈ combos2 items.enum) :
    (i, k) ∈ combos2 (List.range items.length) := by
  have hm : (i, k) ∈ combos2 (items.enum.map Prod.fst) := by
    rw [combos2_map]
    exact List.mem_map.mpr ⟨((i, iti), (k, itk)), h, rfl⟩
  simpa [List.enum_map_fst] using hm

theorem mem_sel_domain {items : List Item} {bins : List Bin} {maxDim : ℚ}
    {i k d : ℕ} (hik : (i, k) ∈ combos2 (List.range items.length)) (hd : d < 6) :
    (Var.sel i k d, VarDomain.binary) ∈ (buildModelCore items bins maxDim).varDomains := by
  simp only [buildModelCore, varDomainsOf, List.mem_append]
  exact Or.inr (List.mem_flatMap.mpr
    ⟨(i, k), hik, List.mem_map.mpr ⟨d, List.mem_range.mpr hd, rfl⟩⟩)

/-- **C6**: for every item pair (i,k), if item i is fragile the model
contains `sel[i,k,4] == 0` (the "i below k" selector is fixed to 0), and
if item k is fragile it contains `sel[i,k,5] == 0`; hence in every
feasible assignment no item is in the "directly above" relation over a
fragile item. -/
theorem c6_fragility_ban (items : List Item) (bins : List Bin) (maxDim : ℚ)
    (i k : ℕ) (iti itk : Item) (hpq : ((i, iti), (k, itk)) ∈ combos2 items.enum) :
    (iti.is_fragile = true →
      ((⟨.fragileCannotSupport i k, .var (.sel i k 4), .eq, .const 0⟩ : Constraint)
         ∈ (buildModelCore items bins maxDim).constraints)
      ∧ ∀ a : Var → ℚ, feasible (buildModelCore items bins maxDim) a = true →
          a (Var.sel i k 4) = 0)
    ∧ (itk.is_fragile = true →
      ((⟨.fragileCannotSupport k i, .var (.sel i k 5), .eq, .const 0⟩ : Constraint)
         ∈ (buildModelCore items bins maxDim).constraints)
      ∧ ∀ a : Var → ℚ, feasible (buildModelCore items bins maxDim) a = true →
          a (Var.sel i k 5) = 0) := by
  constructor
  · intro hfr
    have hmem : (⟨.fragileCannotSupport i k, .var (.sel i k 4), .eq, .const 0⟩ : Constraint)
        ∈ (buildModelCore items bins maxDim).constraints := by
      refine mem_core_stack (List.mem_flatMap.mpr ⟨((i, iti), (k, itk)), hpq, ?_⟩)
      simp [hfr]
    refine ⟨hmem, fun a hf => ?_⟩
    have h := holds_eq (feasible_constraint hf hmem)
    simpa [evalExpr] using h
  · intro hfr
    have hmem : (⟨.fragileCannotSupport k i, .var (.sel i k 5), .eq, .const 0⟩ : Constraint)
        ∈ (buildModelCore items bins maxDim).constraints := by
      refine mem_core_stack (List.mem_flatMap.mpr ⟨((i, iti), (k, itk)), hpq, ?_⟩)
      simp [hfr]
    refine ⟨hmem, fun a hf => ?_⟩
    have h := holds_eq (feasible_constraint hf hmem)
    simpa [evalExpr] using h

/-- Witness for C6: the fragility test scenario of
`test_stackability.py`, with a fragile 10 kg box and a normal box. -/
theorem c6_fragility_ban_witness :
    ((⟨.fragileCannotSupport 0 1, .var (.sel 0 1 4), .eq, .const 0⟩ : Constraint)
       ∈ (buildModelCore
            [{ id := "fragile-box", dims := ⟨10, 10, 10⟩, weight := 10, is_fragile := true },
             { id := "normal-box", dims := ⟨10, 10, 10⟩, weight := 10 }]
            [{ id := "tower-1", dims := ⟨10, 10, 20⟩, max_weight := 100 }] 20).constraints)
    ∧ ∀ a : Var → ℚ,
        feasible (buildModelCore
            [{ id := "fragile-box", dims := ⟨10, 10, 10⟩, weight := 10, is_fragile := true },
             { id := "normal-box", dims := ⟨10, 10, 10⟩, weight := 10 }]
            [{ id := "tower-1", dims := ⟨10, 10, 20⟩, max_weight := 100 }] 20) a = true →
        a (Var.sel 0 1 4) = 0 :=
  (c6_fragility_ban
    [{ id := "fragile-box", dims := ⟨10, 10, 10⟩, weight := 10, is_fragile := true },
     { id := "normal-box", dims := ⟨10, 10, 10⟩, weight := 10 }]
    [{ id := "tower-1", dims := ⟨10, 10, 20⟩, max_weight := 100 }] 20
    0 1
    { id := "fragile-box", dims := ⟨10, 10, 10⟩, weight := 10, is_fragile := true }
    { id := "normal-box", dims := ⟨10, 10, 10⟩, weight := 10 }
    (by decide)).1 rfl

/-- **C5**: for every pair (i,k) where item i declares
`max_stack_weight = L`, the model contains
`weight_k * sel[i,k,4] <= L` (trivially satisfied when the selector is
0 and a nonnegative limit is declared, enforcing `weight_k <= L` when it
is 1), with the symmetric constraint when k declares a limit; and in the
load-bearing scenario (weak box with limit 5, heavy box of weight 20,
tower bin) either the model is infeasible or the heavy box is never
"above" the weak box (`sel[0,1,4] = 0`) in a feasible assignment. -/
theorem c5_load_bearing (items : List Item) (bins : List Bin) (maxDim : ℚ)
    (i k : ℕ) (iti itk : Item) (hpq : ((i, iti), (k, itk)) ∈ combos2 items.enum) :
    (∀ L : ℚ, iti.max_stack_weight = some L →
      ((⟨.loadBearingSupports i k, .mul (.const itk.weight) (.var (.sel i k 4)), .le, .const L⟩ : Constraint)
         ∈ (buildModelCore items bins maxDim).constraints)
      ∧ (∀ a : Var → ℚ, a (Var.sel i k 4) = 0 → 0 ≤ L →
          constraintHolds a
            ⟨.loadBearingSupports i k, .mul (.const itk.weight) (.var (.sel i k 4)), .le, .const L⟩ = true)
      ∧ (∀ a : Var → ℚ, feasible (buildModelCore items bins maxDim) a = true →
          a (Var.sel i k 4) = 1 → itk.weight ≤ L))
    ∧ (∀ L : ℚ, itk.max_stack_weight = some L →
      ((⟨.loadBearingSupports k i, .mul (.const iti.weight) (.var (.sel i k 5)), .le, .const L⟩ : Constraint)
         ∈ (buildModelCore items bins maxDim).constraints)
      ∧ (∀ a : Var → ℚ, feasible (buildModelCore items bins maxDim) a = true →
          a (Var.sel i k 5) = 1 → iti.weight ≤ L))
    ∧ buildModel loadRequest = .ok loadModel
    ∧ ((∀ a : Var → ℚ, feasible loadModel a = false)
        ∨ (∀ a : Var → ℚ, feasible loadModel a = true → a (Var.sel 0 1 4) = 0)) := by
  refine ⟨?_, ?_, rfl, Or.inr ?_⟩
  · intro L hL
    have hmem : (⟨.loadBearingSupports i k, .mul (.const itk.weight) (.var (.sel i k 4)), .le, .const L⟩ : Constraint)
        ∈ (buildModelCore items bins maxDim).constraints := by
      refine mem_core_stack (List.mem_flatMap.mpr ⟨((i, iti), (k, itk)), hpq, ?_⟩)
      simp [hL]
    refine ⟨hmem, fun a hsel hLpos => ?_, fun a hf hsel => ?_⟩
    · apply le_holds
      simp [evalExpr, hsel, hLpos]
    · have h := holds_le (feasible_constraint hf hmem)
      rw [show evalExpr a (.mul (.const itk.weight) (.var (.sel i k 4)))
            = itk.weight * a (Var.sel i k 4) from rfl] at h
      rw [hsel, mul_one] at h
      simpa [evalExpr] using h
  · intro L hL
    have hmem : (⟨.loadBearingSupports k i, .mul (.const iti.weight) (.var (.sel i k 5)), .le, .const L⟩ : Constraint)
        ∈ (buildModelCore items bins maxDim).constraints := by
      refine mem_core_stack (List.mem_flatMap.mpr ⟨((i, iti), (k, itk)), hpq, ?_⟩)
      simp [hL]
    refine ⟨hmem, fun a hf hsel => ?_⟩
    have h := holds_le (feasible_constraint hf hmem)
    rw [show evalExpr a (.mul (.const iti.weight) (.var (.sel i k 5)))
          = iti.weight * a (Var.sel i k 5) from rfl] at h
    rw [hsel, mul_one] at h
    simpa [evalExpr] using h
  · intro a hf
    have hmem : (⟨.loadBearingSupports 0 1, .mul (.const 20) (.var (.sel 0 1 4)), .le, .const 5⟩ : Constraint)
        ∈ loadModel.constraints := by decide
    have h := holds_le (feasible_constraint hf hmem)
    rw [show evalExpr a (.mul (.const 20) (.var (.sel 0 1 4)))
          = 20 * a (Var.sel 0 1 4) from rfl] at h
    have hdom : (Var.sel 0 1 4, VarDomain.binary) ∈ loadModel.varDomains := by decide
    rcases domain_binary (feasible_domain hf hdom) with h0 | h1
    · exact h0
    · rw [h1, mul_one] at h
      have : evalExpr a (Expr.const 5) = 5 := rfl
      rw [this] at h
      norm_num at h

/-- Witness for C5 at the load-bearing scenario request. -/
theorem c5_load_bearing_witness :
    ((⟨.loadBearingSupports 0 1, .mul (.const 20) (.var (.sel 0 1 4)), .le, .const 5⟩ : Constraint)
       ∈ (buildModelCore loadRequest.items loadRequest.bins 20).constraints)
    ∧ (∀ a : Var → ℚ, feasible (buildModelCore loadRequest.items loadRequest.bins 20) a = true →
        a (Var.sel 0 1 4) = 1 → (20 : ℚ) ≤ 5) :=
  ((c5_load_bearing loadRequest.items loadRequest.bins 20 0 1 weakBox bigBox (by decide)).1
    5 rfl).imp id (fun h => h.2)

/-- **C1**: for every unordered item pair the model contains the
unconditional disjunction `sum over d of sel[i,k,d] >= 1` and, per
direction, the Big-M inequality (for d = 0:
`x[i] + length[i] - x[k] <= M*(1 - sel[i,k,0])`, analogously for the
other five); a selector set to 1 forces the separation, a selector set
to 0 leaves the inequality slack (satisfied by every in-domain
placement of items no larger than the largest bin dimension). -/
theorem c1_directional_separation (items : List Item) (bins : List Bin) (maxDim : ℚ)
    (i k : ℕ) (iti itk : Item) (hpq : ((i, iti), (k, itk)) ∈ combos2 items.enum) :
    ((⟨.separationRequired i k,
        quicksum ((List.range 6).map fun d => .var (.sel i k d)),
        .ge, .const 1⟩ : Constraint) ∈ (buildModelCore items bins maxDim).constraints)
    ∧ ∀ d, d < 6 →
        ((⟨sepLabel i k d, sepLhs iti itk i k d, .le, bigMSlackSel (maxDim * 2) i k d⟩ : Constraint)
            ∈ (buildModelCore items bins maxDim).constraints)
        ∧ (∀ a : Var → ℚ, feasible (buildModelCore items bins maxDim) a = true →
              a (Var.sel i k d) = 1 → evalExpr a (sepLhs iti itk i k d) ≤ 0)
        ∧ (∀ a : Var → ℚ, a (Var.sel i k d) = 0 →
              (∀ i2, 0 ≤ a (Var.x i2) ∧ a (Var.x i2) ≤ maxDim) →
              (∀ i2, 0 ≤ a (Var.y i2) ∧ a (Var.y i2) ≤ maxDim) →
              (∀ i2, 0 ≤ a (Var.z i2) ∧ a (Var.z i2) ≤ maxDim) →
              iti.dims.length ≤ maxDim → itk.dims.length ≤ maxDim →
              iti.dims.width ≤ maxDim → itk.dims.width ≤ maxDim →
              iti.dims.height ≤ maxDim → itk.dims.height ≤ maxDim →
              constraintHolds a
                ⟨sepLabel i k d, sepLhs iti itk i k d, .le, bigMSlackSel (maxDim * 2) i k d⟩ = true) := by
  constructor
  · exact mem_core_sep (List.mem_flatMap.mpr ⟨((i, iti), (k, itk)), hpq, by simp [sepCs]⟩)
  · intro d hd
    have hmem : (⟨sepLabel i k d, sepLhs iti itk i k d, .le, bigMSlackSel (maxDim * 2) i k d⟩ : Constraint)
        ∈ (buildModelCore items bins maxDim).constraints := by
      refine mem_core_sep (List.mem_flatMap.mpr ⟨((i, iti), (k, itk)), hpq, ?_⟩)
      interval_cases d <;> simp [sepCs, sepLabel, sepLhs]
    refine ⟨hmem, fun a hf hsel => ?_, fun a hsel hx hy hz hl1 hl2 hw1 hw2 hh1 hh2 => ?_⟩
    · have h := holds_le (feasible_constraint hf hmem)
      have hr : evalExpr a (bigMSlackSel (maxDim * 2) i k d) = 0 := by
        simp [bigMSlackSel, evalExpr, hsel]
      rw [hr] at h
      exact h
    · apply le_holds
      have hr : evalExpr a (bigMSlackSel (maxDim * 2) i k d) = maxDim * 2 := by
        simp [bigMSlackSel, evalExpr, hsel]
      rw [hr]
      interval_cases d
      · have hxi := hx i; have hxk := hx k
        simp only [sepLhs, evalExpr]
        linarith [hxi.1, hxi.2, hxk.1, hxk.2]
      · have hxi := hx i; have hxk := hx k
        simp only [sepLhs, evalExpr]
        linarith [hxi.1, hxi.2, hxk.1, hxk.2]
      · have hyi := hy i; have hyk := hy k
        simp only [sepLhs, evalExpr]
        linarith [hyi.1, hyi.2, hyk.1, hyk.2]
      · have hyi := hy i; have hyk := hy k
        simp only [sepLhs, evalExpr]
        linarith [hyi.1, hyi.2, hyk.1, hyk.2]
      · have hzi := hz i; have hzk := hz k
        simp only [sepLhs, evalExpr]
        linarith [hzi.1, hzi.2, hzk.1, hzk.2]
      · have hzi := hz i; have hzk := hz k
        simp only [sepLhs, evalExpr]
        linarith [hzi.1, hzi.2, hzk.1, hzk.2]

/-- Witness for C1 at the load-bearing scenario request, pair (0,1),
direction 4 ("i below k"). -/
theorem c1_directional_separation_witness :
    ((⟨.separationRequired 0 1,
        quicksum ((List.range 6).map fun d => .var (.sel 0 1 d)),
        .ge, .const 1⟩ : Constraint)
       ∈ (buildModelCore loadRequest.items loadRequest.bins 20).constraints)
    ∧ ((⟨sepLabel 0 1 4, sepLhs weakBox bigBox 0 1 4, .le, bigMSlackSel (20 * 2) 0 1 4⟩ : Constraint)
       ∈ (buildModelCore loadRequest.items loadRequest.bins 20).constraints) :=
  ⟨(c1_directional_separation loadRequest.items loadRequest.bins 20 0 1 weakBox bigBox (by decide)).1,
   ((c1_directional_separation loadRequest.items loadRequest.bins 20 0 1 weakBox bigBox (by decide)).2
     4 (by norm_num)).1⟩

theorem foldl_max_le (l : List ℚ) (x : ℚ) :
    x ≤ l.foldl max x ∧ ∀ q ∈ l, q ≤ l.foldl max x := by
  induction l generalizing x with
  | nil => simp
  | cons q t ih =>
    obtain ⟨h1, h2⟩ := ih (max x q)
    refine ⟨le_trans (le_max_left x q) h1, fun r hr => ?_⟩
    rcases List.mem_cons.mp hr with rfl | hmem
    · exact le_trans (le_max_right x r) h1
    · exact h2 r hmem

theorem foldl_max_attained (l : List ℚ) (x : ℚ) :
    l.foldl max x = x ∨ ∃ q ∈ l, l.foldl max x = q := by
  induction l generalizing x with
  | nil => simp
  | cons q t ih =>
    rcases ih (max x q) with h | ⟨r, hr, hrr⟩
    · rcases max_choice x q with hc | hc
      · left; rw [List.foldl_cons, h, hc]
      · right; exact ⟨q, by simp, by rw [List.foldl_cons, h, hc]⟩
    · right; exact ⟨r, by simp [hr], by rw [List.foldl_cons]; exact hrr⟩

theorem maxBinDimOfBins_spec (bins : List Bin) (d : ℚ)
    (h : maxBinDimOfBins bins = some d) :
    (∀ b ∈ bins, binMaxDim b ≤ d) ∧ ∃ b ∈ bins, binMaxDim b = d := by
  match bins, h with
  | b :: bs, h =>
    have hd : d = bs.foldl (fun m c => max m (binMaxDim c)) (binMaxDim b) := by
      have := h
      simp only [maxBinDimOfBins, Option.some.injEq] at this
      exact this.symm
    have hfold : (bs.map binMaxDim).foldl max (binMaxDim b)
        = bs.foldl (fun m c => max m (binMaxDim c)) (binMaxDim b) :=
      List.foldl_map binMaxDim max bs (binMaxDim b)
    obtain ⟨hle, hall⟩ := foldl_max_le (bs.map binMaxDim) (binMaxDim b)
    constructor
    · intro c hc
      rcases List.mem_cons.mp hc with rfl | hmem
      · rw [hd, ← hfold]; exact hle
      · rw [hd, ← hfold]
        exact hall (binMaxDim c) (List.mem_map.mpr ⟨c, hmem, rfl⟩)
    · rcases foldl_max_attained (bs.map binMaxDim) (binMaxDim b) with hat | ⟨q, hq, hqq⟩
      · exact ⟨b, by simp, by rw [hd, ← hfold, hat]⟩
      · obtain ⟨c, hc, rfl⟩ := List.mem_map.mp hq
        exact ⟨c, by simp [hc], by rw [hd, ← hfold, hqq]⟩

/-- **C2**: the Big-M constant is twice the largest single bin
dimension (`M/2` bounds every bin dimension and is attained), every
coordinate variable is declared with domain `[0, M/2]`, and for every
(item, bin) pair the three per-axis containment constraints
`position[i] + extent[i] - binExtent[j] <= M*(1 - assign[i,j])` are in
the model, forcing containment when `assign[i,j] = 1` and imposing
nothing (satisfied by every in-domain placement) when `assign[i,j] = 0`. -/
theorem c2_big_m_containment (items : List Item) (bins : List Bin) (maxDim : ℚ)
    (hmax : maxBinDimOfBins bins = some maxDim) :
    (buildModel { items := items, bins := bins } = .ok (buildModelCore items bins maxDim))
    ∧ ((∀ b ∈ bins, binMaxDim b ≤ maxDim * 2 / 2) ∧ ∃ b ∈ bins, binMaxDim b = maxDim * 2 / 2)
    ∧ (∀ i, i < items.length →
        ((Var.x i, VarDomain.real 0 (maxDim * 2 / 2)) ∈ (buildModelCore items bins maxDim).varDomains)
        ∧ ((Var.y i, VarDomain.real 0 (maxDim * 2 / 2)) ∈ (buildModelCore items bins maxDim).varDomains)
        ∧ ((Var.z i, VarDomain.real 0 (maxDim * 2 / 2)) ∈ (buildModelCore items bins maxDim).varDomains))
    ∧ (∀ i itm j bn, (i, itm) ∈ items.enum → (j, bn) ∈ bins.enum →
        ((⟨.containX i j,
            .sub (.add (.var (.x i)) (.const itm.dims.length)) (.const bn.dims.length),
            .le, .mul (.const (maxDim * 2)) (.sub (.const 1) (.var (.binLoc i j)))⟩ : Constraint)
           ∈ (buildModelCore items bins maxDim).constraints)
        ∧ ((⟨.containY i j,
            .sub (.add (.var (.y i)) (.const itm.dims.width)) (.const bn.dims.width),
            .le, .mul (.const (maxDim * 2)) (.sub (.const 1) (.var (.binLoc i j)))⟩ : Constraint)
           ∈ (buildModelCore items bins maxDim).constraints)
        ∧ ((⟨.containZ i j,
            .sub (.add (.var (.z i)) (.const itm.dims.height)) (.const bn.dims.height),
            .le, .mul (.const (maxDim * 2)) (.sub (.const 1) (.var (.binLoc i j)))⟩ : Constraint)
           ∈ (buildModelCore items bins maxDim).constraints)
        ∧ (∀ a : Var → ℚ, feasible (buildModelCore items bins maxDim) a = true →
            a (Var.binLoc i j) = 1 →
            a (Var.x i) + itm.dims.length ≤ bn.dims.length
            ∧ a (Var.y i) + itm.dims.width ≤ bn.dims.width
            ∧ a (Var.z i) + itm.dims.height ≤ bn.dims.height)
        ∧ (∀ a : Var → ℚ, a (Var.binLoc i j) = 0 →
            0 ≤ a (Var.x i) → a (Var.x i) ≤ maxDim →
            0 ≤ a (Var.y i) → a (Var.y i) ≤ maxDim →
            0 ≤ a (Var.z i) → a (Var.z i) ≤ maxDim →
            itm.dims.length ≤ maxDim → itm.dims.width ≤ maxDim → itm.dims.height ≤ maxDim →
            0 ≤ bn.dims.length → 0 ≤ bn.dims.width → 0 ≤ bn.dims.height →
            constraintHolds a
              ⟨.containX i j,
                .sub (.add (.var (.x i)) (.const itm.dims.length)) (.const bn.dims.length),
                .le, .mul (.const (maxDim * 2)) (.sub (.const 1) (.var (.binLoc i j)))⟩ = true
            ∧ constraintHolds a
              ⟨.containY i j,
                .sub (.add (.var (.y i)) (.const itm.dims.width)) (.const bn.dims.width),
                .le, .mul (.const (maxDim * 2)) (.sub (.const 1) (.var (.binLoc i j)))⟩ = true
            ∧ constraintHolds a
              ⟨.containZ i j,
                .sub (.add (.var (.z i)) (.const itm.dims.height)) (.const bn.dims.height),
                .le, .mul (.const (maxDim * 2)) (.sub (.const 1) (.var (.binLoc i j)))⟩ = true)) := by
  have hhalf : maxDim * 2 / 2 = maxDim := by ring
  refine ⟨?_, ?_, ?_, ?_⟩
  · simp [buildModel, hmax]
  · rw [hhalf]; exact maxBinDimOfBins_spec bins maxDim hmax
  · intro i hi
    rw [hhalf]
    refine ⟨mem_x_domain hi, ?_, ?_⟩
    · simp only [buildModelCore, varDomainsOf, List.mem_append]
      exact Or.inl (Or.inl (Or.inr (List.mem_map.mpr ⟨i, List.mem_range.mpr hi, rfl⟩)))
    · simp only [buildModelCore, varDomainsOf, List.mem_append]
      exact Or.inl (Or.inr (List.mem_map.mpr ⟨i, List.mem_range.mpr hi, rfl⟩))
  · intro i itm j bn hpi hqj
    have hmemX : (⟨.containX i j,
        .sub (.add (.var (.x i)) (.const itm.dims.length)) (.const bn.dims.length),
        .le, .mul (.const (maxDim * 2)) (.sub (.const 1) (.var (.binLoc i j)))⟩ : Constraint)
        ∈ (buildModelCore items bins maxDim).constraints :=
      mem_core_contain (List.mem_flatMap.mpr ⟨(i, itm), hpi,
        List.mem_flatMap.mpr ⟨(j, bn), hqj, by simp⟩⟩)
    have hmemY : (⟨.containY i j,
        .sub (.add (.var (.y i)) (.const itm.dims.width)) (.const bn.dims.width),
        .le, .mul (.const (maxDim * 2)) (.sub (.const 1) (.var (.binLoc i j)))⟩ : Constraint)
        ∈ (buildModelCore items bins maxDim).constraints :=
      mem_core_contain (List.mem_flatMap.mpr ⟨(i, itm), hpi,
        List.mem_flatMap.mpr ⟨(j, bn), hqj, by simp⟩⟩)
    have hmemZ : (⟨.containZ i j,
        .sub (.add (.var (.z i)) (.const itm.dims.height)) (.const bn.dims.height),
        .le, .mul (.const (maxDim * 2)) (.sub (.const 1) (.var (.binLoc i j)))⟩ : Constraint)
        ∈ (buildModelCore items bins maxDim).constraints :=
      mem_core_contain (List.mem_flatMap.mpr ⟨(i, itm), hpi,
        List.mem_flatMap.mpr ⟨(j, bn), hqj, by simp⟩⟩)
    refine ⟨hmemX, hmemY, hmemZ, fun a hf hloc => ?_, fun a hloc hx0 hx1 hy0 hy1 hz0 hz1 hdl hdw hdh hbl hbw hbh => ?_⟩
    · have hX := holds_le (feasible_constraint hf hmemX)
      have hY := holds_le (feasible_constraint hf hmemY)
      have hZ := holds_le (feasible_constraint hf hmemZ)
      simp only [evalExpr, hloc] at hX hY hZ
      refine ⟨by linarith, by linarith, by linarith⟩
    · refine ⟨le_holds ?_, le_holds ?_, le_holds ?_⟩
      · simp only [evalExpr, hloc]; linarith
      · simp only [evalExpr, hloc]; linarith
      · simp only [evalExpr, hloc]; linarith

/-- Witness for C2 at the axle scenario request. -/
theorem c2_big_m_containment_witness :
    (buildModel { items := axleRequest.items, bins := axleRequest.bins }
       = .ok (buildModelCore axleRequest.items axleRequest.bins 10))
    ∧ ((∀ b ∈ axleRequest.bins, binMaxDim b ≤ 10 * 2 / 2)
       ∧ ∃ b ∈ axleRequest.bins, binMaxDim b = 10 * 2 / 2) :=
  ⟨(c2_big_m_containment axleRequest.items axleRequest.bins 10 (by decide)).1,
   (c2_big_m_containment axleRequest.items axleRequest.bins 10 (by decide)).2.1⟩

/-- **C3, counterexample**: in the CoG scenario (bin of length 20, CoG
target x = 10, tolerance 2, a 50 kg and a 5 kg item, each 2 x 2 x 2) the
assignment placing the heavy item at corner x = 12 (geometric center 13)
is feasible for the compiled model, so the heavy item's center is not
confined to [8, 12]. -/
theorem c3_cog_center_counterexample :
    buildModel cogRequest = .ok cogModel
    ∧ feasible cogModel cogWideAssign = true
    ∧ ¬(8 ≤ cogWideAssign (Var.x 0) + 1 ∧ cogWideAssign (Var.x 0) + 1 ≤ 12) :=
  ⟨rfl, by decide, by decide⟩

/-- **C3, amended**: in the CoG scenario the model contains the CoG
family `momentX - (10+2)*totalWeight <= 0` and
`momentX - (10-2)*totalWeight >= 0` (with `momentX` summing
`assign[i,0]*weight[i]*(x[i]+length[i]/2)`), and every feasible
assignment places the 50 kg item's geometric center `x[0] + 1` inside
[6.9, 13.1]: the family confines the combined weighted center to
[8, 12], and the 5 kg item can offset the heavy item's own center by at
most 1.1. -/
theorem c3_cog_center_range (a : Var → ℚ) (hf : feasible cogModel a = true) :
    ((⟨.cogXUpper 0,
        .sub (momentXExpr cogRequest.items 0) (.mul (.const 12) (totalWeightExpr cogRequest.items 0)),
        .le, .const 0⟩ : Constraint) ∈ cogModel.constraints)
    ∧ ((⟨.cogXLower 0,
        .sub (momentXExpr cogRequest.items 0) (.mul (.const 8) (totalWeightExpr cogRequest.items 0)),
        .ge, .const 0⟩ : Constraint) ∈ cogModel.constraints)
    ∧ 69/10 ≤ a (Var.x 0) + 1 ∧ a (Var.x 0) + 1 ≤ 131/10 := by
  have hupM : (⟨.cogXUpper 0,
      .sub (momentXExpr cogRequest.items 0) (.mul (.const 12) (totalWeightExpr cogRequest.items 0)),
      .le, .const 0⟩ : Constraint) ∈ cogModel.constraints := by decide
  have hloM : (⟨.cogXLower 0,
      .sub (momentXExpr cogRequest.items 0) (.mul (.const 8) (totalWeightExpr cogRequest.items 0)),
      .ge, .const 0⟩ : Constraint) ∈ cogModel.constraints := by decide
  have hupX : (⟨.cogXUpper 0,
      .sub
        (.add
          (.add (.const 0)
            (.mul (.mul (.var (.binLoc 0 0)) (.const 50)) (.add (.var (.x 0)) (.const 1))))
          (.mul (.mul (.var (.binLoc 1 0)) (.const 5)) (.add (.var (.x 1)) (.const 1))))
        (.mul (.const 12)
          (.add (.add (.const 0) (.mul (.var (.binLoc 0 0)) (.const 50)))
            (.mul (.var (.binLoc 1 0)) (.const 5)))),
      .le, .const 0⟩ : Constraint) ∈ cogModel.constraints := by decide
  have hloX : (⟨.cogXLower 0,
      .sub
        (.add
          (.add (.const 0)
            (.mul (.mul (.var (.binLoc 0 0)) (.const 50)) (.add (.var (.x 0)) (.const 1))))
          (.mul (.mul (.var (.binLoc 1 0)) (.const 5)) (.add (.var (.x 1)) (.const 1))))
        (.mul (.const 8)
          (.add (.add (.const 0) (.mul (.var (.binLoc 0 0)) (.const 50)))
            (.mul (.var (.binLoc 1 0)) (.const 5)))),
      .ge, .const 0⟩ : Constraint) ∈ cogModel.constraints := by decide
  have hb0M : (⟨.itemAssignedOnce 0, .add (.const 0) (.var (.binLoc 0 0)), .eq, .const 1⟩ : Constraint)
      ∈ cogModel.constraints := by decide
  have hb1M : (⟨.itemAssignedOnce 1, .add (.const 0) (.var (.binLoc 1 0)), .eq, .const 1⟩ : Constraint)
      ∈ cogModel.constraints := by decide
  have hcxM : (⟨.containX 1 0, .sub (.add (.var (.x 1)) (.const 2)) (.const 20),
      .le, .mul (.const 40) (.sub (.const 1) (.var (.binLoc 1 0)))⟩ : Constraint)
      ∈ cogModel.constraints := by decide
  have hx1D : (Var.x 1, VarDomain.real 0 20) ∈ cogModel.varDomains := by decide
  have hb0 : a (Var.binLoc 0 0) = 1 := by
    simpa [evalExpr] using holds_eq (feasible_constraint hf hb0M)
  have hb1 : a (Var.binLoc 1 0) = 1 := by
    simpa [evalExpr] using holds_eq (feasible_constraint hf hb1M)
  have hu := holds_le (feasible_constraint hf hupX)
  have hl := holds_ge (feasible_constraint hf hloX)
  have hcx := holds_le (feasible_constraint hf hcxM)
  have hx1 := domain_real (feasible_domain hf hx1D)
  simp only [evalExpr, hb0, hb1] at hu hl hcx
  refine ⟨hupM, hloM, ?_, ?_⟩
  · nlinarith [hx1.1, hx1.2, hu, hl, hcx]
  · nlinarith [hx1.1, hx1.2, hu, hl, hcx]

/-- Witness for C3 (amended) at the balanced assignment with both items
centered (heavy item center 10). -/
theorem c3_cog_center_range_witness :
    ((⟨.cogXUpper 0,
        .sub (momentXExpr cogRequest.items 0) (.mul (.const 12) (totalWeightExpr cogRequest.items 0)),
        .le, .const 0⟩ : Constraint) ∈ cogModel.constraints)
    ∧ ((⟨.cogXLower 0,
        .sub (momentXExpr cogRequest.items 0) (.mul (.const 8) (totalWeightExpr cogRequest.items 0)),
        .ge, .const 0⟩ : Constraint) ∈ cogModel.constraints)
    ∧ 69/10 ≤ cogMidAssign (Var.x 0) + 1 ∧ cogMidAssign (Var.x 0) + 1 ≤ 131/10 :=
  c3_cog_center_range cogMidAssign (by decide)

/-- **C4**: in the axle scenario (wheelbase 10, per-axle limit 40, one
60 kg item 2 x 2 x 2, no other constraint active) the compiled model is
feasible for a placement of the item's corner at x = v exactly when the
geometric center v + 1 lies in [10/3, 20/3], and infeasible for every
placement of the center outside that interval. -/
theorem c4_axle_center_iff :
    buildModel axleRequest = .ok axleModel
    ∧ ∀ v : ℚ, (∃ a : Var → ℚ, feasible axleModel a = true ∧ a (Var.x 0) = v)
        ↔ (10/3 ≤ v + 1 ∧ v + 1 ≤ 20/3) := by
  have hcs : axleModel.constraints =
      [⟨.itemAssignedOnce 0, .add (.const 0) (.var (.binLoc 0 0)), .eq, .const 1⟩,
       ⟨.linkItemBin 0 0, .sub (.var (.binLoc 0 0)) (.var (.binOn 0)), .le, .const 0⟩,
       ⟨.containX 0 0, .sub (.add (.var (.x 0)) (.const 2)) (.const 10),
         .le, .mul (.const 20) (.sub (.const 1) (.var (.binLoc 0 0)))⟩,
       ⟨.containY 0 0, .sub (.add (.var (.y 0)) (.const 2)) (.const 10),
         .le, .mul (.const 20) (.sub (.const 1) (.var (.binLoc 0 0)))⟩,
       ⟨.containZ 0 0, .sub (.add (.var (.z 0)) (.const 2)) (.const 10),
         .le, .mul (.const 20) (.sub (.const 1) (.var (.binLoc 0 0)))⟩,
       ⟨.binWeightLimit 0, .add (.const 0) (.mul (.var (.binLoc 0 0)) (.const 60)), .le, .const 100⟩,
       ⟨.axleRearLimit 0,
         .div (.add (.const 0) (.mul (.mul (.var (.binLoc 0 0)) (.const 60)) (.add (.var (.x 0)) (.const 1)))) 10,
         .le, .const 40⟩,
       ⟨.axleFrontLimit 0,
         .sub (.add (.const 0) (.mul (.var (.binLoc 0 0)) (.const 60)))
           (.div (.add (.const 0) (.mul (.mul (.var (.binLoc 0 0)) (.const 60)) (.add (.var (.x 0)) (.const 1)))) 10),
         .le, .const 40⟩] := by decide
  have hvd : axleModel.varDomains =
      [(Var.binLoc 0 0, VarDomain.binary), (Var.binOn 0, VarDomain.binary),
       (Var.x 0, VarDomain.real 0 10), (Var.y 0, VarDomain.real 0 10),
       (Var.z 0, VarDomain.real 0 10)] := by decide
  refine ⟨rfl, fun v => ⟨?_, ?_⟩⟩
  · rintro ⟨a, hf, rfl⟩
    have hb0 : a (Var.binLoc 0 0) = 1 := by
      have hm : (⟨.itemAssignedOnce 0, .add (.const 0) (.var (.binLoc 0 0)), .eq, .const 1⟩ : Constraint)
          ∈ axleModel.constraints := by rw [hcs]; simp
      simpa [evalExpr] using holds_eq (feasible_constraint hf hm)
    have hrear : (⟨.axleRearLimit 0,
        .div (.add (.const 0) (.mul (.mul (.var (.binLoc 0 0)) (.const 60)) (.add (.var (.x 0)) (.const 1)))) 10,
        .le, .const 40⟩ : Constraint) ∈ axleModel.constraints := by rw [hcs]; simp
    have hfront : (⟨.axleFrontLimit 0,
        .sub (.add (.const 0) (.mul (.var (.binLoc 0 0)) (.const 60)))
          (.div (.add (.const 0) (.mul (.mul (.var (.binLoc 0 0)) (.const 60)) (.add (.var (.x 0)) (.const 1)))) 10),
        .le, .const 40⟩ : Constraint) ∈ axleModel.constraints := by rw [hcs]; simp
    have hr := holds_le (feasible_constraint hf hrear)
    have hfr := holds_le (feasible_constraint hf hfront)
    simp only [evalExpr, hb0] at hr hfr
    rw [div_le_iff₀ (by norm_num : (0:ℚ) < 10)] at hr
    constructor
    · have h20 : (0 + 1 * 60 * (a (Var.x 0) + 1)) / 10 ≥ 20 := by linarith
      rw [ge_iff_le, le_div_iff₀ (by norm_num : (0:ℚ) < 10)] at h20
      linarith
    · linarith
  · rintro ⟨h1, h2⟩
    refine ⟨axleAssign v, ?_, rfl⟩
    have hv0 : 0 ≤ v := by linarith
    have hv10 : v ≤ 10 := by linarith
    rw [feasible, hcs, hvd]
    simp only [List.all_cons, List.all_nil, Bool.and_true, Bool.and_eq_true,
      inDomain, constraintHolds, evalExpr, axleAssign, decide_eq_true_eq]
    norm_num
    refine ⟨⟨hv0, hv10⟩, ?_, ?_, ?_⟩
    · linarith
    · rw [div_le_iff₀ (by norm_num : (0:ℚ) < 10)]; linarith
    · have hrw : 60 * (v + 1) / 10 = 6 * (v + 1) := by ring
      rw [hrw]; linarith

theorem flatMap_congr {α β : Type} {l : List α} {f g : α → List β}
    (h : ∀ x ∈ l, f x = g x) : l.flatMap f = l.flatMap g := by
  induction l with
  | nil => rfl
  | cons a t ih =>
    simp only [List.flatMap_cons]
    rw [h a (by simp), ih (fun x hx => h x (by simp [hx]))]

theorem containCs_strip (items : List Item) (bins : List Bin) (M : ℚ) :
    containCs items (bins.map stripBalance) M = containCs items bins M := by
  simp only [containCs, List.enum_map, List.flatMap_map]
  rfl

theorem weightCs_strip (items : List Item) (bins : List Bin) :
    weightCs items (bins.map stripBalance) = weightCs items bins := by
  simp only [weightCs, List.enum_map, List.map_map]
  rfl

theorem balance_strip (items : List Item) (bins : List Bin) :
    (bins.map stripBalance).enum.flatMap
      (fun q => cogCs items q.1 q.2 ++ axleCs items q.1 q.2) = [] := by
  rw [List.enum_map, List.flatMap_map]
  have h : ∀ q ∈ bins.enum,
      (fun p => cogCs items p.1 p.2 ++ axleCs items p.1 p.2) (Prod.map id stripBalance q)
        = ([] : List Constraint) := by
    intro q hq
    rfl
  rw [flatMap_congr h]
  induction bins.enum with
  | nil => rfl
  | cons a t ih =>
    rw [List.flatMap_cons, List.nil_append]
    exact ih

/-- **C8, counterexample**: a bin whose CoG fields are both present but
with `cog_tolerance = 0.0` (falsy in Python) gets NO center-of-gravity
family: presence of the optional fields is not the feature toggle. -/
theorem c8_presence_counterexample :
    zeroTolBin.center_of_gravity_target.isSome = true
    ∧ zeroTolBin.cog_tolerance.isSome = true
    ∧ cogCs [heavyBox] 0 zeroTolBin = []
    ∧ (buildModelCore [heavyBox] [zeroTolBin] 20).constraints.all
        (fun c => !(c.label == Label.cogXUpper 0)) = true :=
  ⟨rfl, rfl, by decide, by decide⟩

/-- **C8, amended**: the balance families are emitted per bin exactly
when the guarding fields are present AND truthy (a present numeric zero
is falsy in Python, so `cog_tolerance = 0`, `wheelbase = 0` or
`axle_max_weight = 0` also skips the family); partial or falsy
configuration skips silently with no validation error; and the balance
families are purely additive: the rest of the model is the model of the
balance-stripped request. -/
theorem c8_truthiness_toggle (items : List Item) (bins : List Bin) (maxDim : ℚ) :
    ((buildModelCore items bins maxDim).constraints
      = (buildModelCore items (bins.map stripBalance) maxDim).constraints
        ++ bins.enum.flatMap (fun q => cogCs items q.1 q.2 ++ axleCs items q.1 q.2))
    ∧ (∀ j bn, (j, bn) ∈ bins.enum →
        ((cogCs items j bn ≠ []) ↔
          (bn.center_of_gravity_target.isSome = true ∧ ∃ t, bn.cog_tolerance = some t ∧ t ≠ 0))
        ∧ ((axleCs items j bn ≠ []) ↔
          ((∃ w, bn.wheelbase = some w ∧ w ≠ 0) ∧ ∃ mw, bn.axle_max_weight = some mw ∧ mw ≠ 0))
        ∧ (∀ c ∈ cogCs items j bn ++ axleCs items j bn,
            c ∈ (buildModelCore items bins maxDim).constraints))
    ∧ (bins ≠ [] → ∀ tl : ℕ,
        (buildModel { items := items, bins := bins, time_limit_seconds := tl }).isOk = true) := by
  refine ⟨?_, ?_, ?_⟩
  · simp only [buildModelCore, List.length_map, containCs_strip, weightCs_strip, balance_strip,
      List.append_nil, List.append_assoc]
  · intro j bn hjq
    refine ⟨?_, ?_, ?_⟩
    · rcases hct : bn.center_of_gravity_target with _ | ⟨tx, ty⟩ <;>
        rcases htl : bn.cog_tolerance with _ | t <;>
          simp [cogCs, hct, htl]
    · rcases hwb : bn.wheelbase with _ | w <;>
        rcases ham : bn.axle_max_weight with _ | mw <;>
          simp [axleCs, hwb, ham]
    · intro c hc
      exact mem_core_balance (List.mem_flatMap.mpr ⟨(j, bn), hjq, hc⟩)
  · intro hb tl
    match bins, hb with
    | b :: bs, _ => rfl

/-- Witness for C8 at the axle scenario bin: CoG family absent (fields
absent), axle family present (both fields present and nonzero). -/
theorem c8_truthiness_toggle_witness :
    cogCs axleRequest.items 0 axleBin = [] ∧ axleCs axleRequest.items 0 axleBin ≠ [] := by
  have h := (c8_truthiness_toggle axleRequest.items axleRequest.bins 10).2.1 0 axleBin (by decide)
  constructor
  · by_contra hne
    have h2 := h.1.mp hne
    simp [axleBin] at h2
  · exact h.2.1.mpr ⟨⟨10, rfl, by norm_num⟩, ⟨40, rfl, by norm_num⟩⟩

/-- **C9, counterexample**: a request with an empty item list is not
rejected: `build_model` builds a model for it (no validation at all);
the claimed pre-compilation validation failure does not exist. -/
theorem c9_no_validation_counterexample :
    noItemsRequest.items = []
    ∧ buildModel noItemsRequest = .ok (buildModelCore [] [towerBin] 20) :=
  ⟨rfl, rfl⟩

/-- **C9, amended**: `build_model` performs no request validation.  A
request with an empty item list (and some bin) is accepted and compiles
to a model; a request with an empty bin list fails only with the
uncaught `ValueError` that Python's `max()` raises on an empty
sequence, not with a distinct validation failure. -/
theorem c9_no_validation (r : PackingRequest) :
    (r.items = [] → r.bins ≠ [] → (buildModel r).isOk = true)
    ∧ (r.bins = [] → buildModel r = .error "ValueError: max() arg is an empty sequence") := by
  constructor
  · intro hitems hb
    match hbins : r.bins, hb with
    | b :: bs, _ =>
      simp only [buildModel, hbins, maxBinDimOfBins]
      rfl
  · intro hb
    simp [buildModel, maxBinDimOfBins, hb]

/-- Witness for C9 at the empty-items and empty-bins requests. -/
theorem c9_no_validation_witness :
    (buildModel noItemsRequest).isOk = true
    ∧ buildModel noBinsRequest = .error "ValueError: max() arg is an empty sequence" :=
  ⟨(c9_no_validation noItemsRequest).1 rfl (by decide),
   (c9_no_validation noBinsRequest).2 rfl⟩

/-- **C10**: compiling the same request twice, each time through a
freshly constructed `EnterpriseSolver` (whatever the `time_limit`
arguments), yields identical CQM content — the same variable domains,
the same labeled constraints, the same objective.  `__init__` creates a
fresh empty CQM per instance and `build_model` reads no other instance
state, so no hidden state is carried between the two compilations. -/
theorem runBuildModel_none (s : EnterpriseSolver) (r : PackingRequest)
    (h : maxBinDimOfBins r.bins = none) :
    EnterpriseSolver.runBuildModel s r
      = .error "ValueError: max() arg is an empty sequence" := by
  unfold EnterpriseSolver.runBuildModel
  rw [h]

theorem runBuildModel_some (s : EnterpriseSolver) (r : PackingRequest) (d : ℚ)
    (h : maxBinDimOfBins r.bins = some d) :
    EnterpriseSolver.runBuildModel s r
      = ((buildModelCore r.items r.bins d).constraints.foldlM addConstraintCQM
          s.cqmConstraints).map
          (fun cs =>
            { s with
              cqmVarDomains := s.cqmVarDomains ++ (buildModelCore r.items r.bins d).varDomains,
              cqmConstraints := cs,
              cqmObjective := (buildModelCore r.items r.bins d).objective }) := by
  unfold EnterpriseSolver.runBuildModel
  rw [h]

theorem c10_idempotent_compilation (r : PackingRequest) (t1 t2 : ℕ) :
    (EnterpriseSolver.runBuildModel (.init t1) r).map EnterpriseSolver.cqmContent
      = (EnterpriseSolver.runBuildModel (.init t2) r).map EnterpriseSolver.cqmContent := by
  cases hmax : maxBinDimOfBins r.bins with
  | none =>
    rw [runBuildModel_none _ _ hmax, runBuildModel_none _ _ hmax]
  | some d =>
    rw [runBuildModel_some _ _ d hmax, runBuildModel_some _ _ d hmax]
    simp only [EnterpriseSolver.init]
    cases List.foldlM addConstraintCQM ([] : List Constraint)
        (buildModelCore r.items r.bins d).constraints with
    | error e => rfl
    | ok cs => rfl

/-- Witness for C10: two fresh compilations of the CoG scenario request
with different time limits agree. -/
theorem c10_idempotent_compilation_witness :
    (EnterpriseSolver.runBuildModel (.init 10) cogRequest).map EnterpriseSolver.cqmContent
      = (EnterpriseSolver.runBuildModel (.init 20) cogRequest).map EnterpriseSolver.cqmContent :=
  c10_idempotent_compilation cogRequest 10 20

end
